import Mathlib

/-!
Verification development for the `comp` postfix (RPN) command interpreter
(`src/comp.rs`).

Modelling conventions, used throughout:

* Rust `f64` values are modelled as exact rationals (`ℚ`).  All arithmetic
  that is exact on floats for the inputs under consideration (small integers,
  short decimals) is exact on `ℚ` as well; transcendental `f64` routines
  (`sqrt`, `powf`, trigonometry, logarithms, the constants `PI` and `E`) are
  abstracted as an oracle parameter `FloatFns`, so every theorem about them
  holds for an arbitrary interpretation of those routines.
* The operand stack `Interpreter.stack : Vec<String>` is modelled as a
  `List String` whose HEAD is the TOP of the stack (the reverse of the `Vec`
  storage order); `push` is `cons`, `pop` takes the head.  The pending
  operations queue `Interpreter.ops : Vec<String>` is modelled as a
  `List String` in storage order (head = front of the queue), matching the
  `remove(0)` / `insert(0, _)` discipline of the source.
* `std::process::exit(99)` on a fatal diagnostic is modelled by returning
  `Except.error` with a `CompError` whose `exitCode` is `99`; a Rust panic
  (`unwrap` on `None`, `Vec` indexing / `remove` out of bounds) is modelled
  by the `crash…` errors, whose `exitCode` is `101` (the Rust panic exit
  status).  The warning printed by `drop` on an empty stack is recorded in
  the `warnings` field of the state.
* `f64::to_string` (shortest decimal rendering) is modelled by `renderQ`,
  which prints the exact terminating decimal expansion without trailing
  zeros (and no decimal point for integral values), exactly as Rust prints
  every float whose value is a short decimal; rationals without a
  terminating decimal expansion (which never arise from parsed decimal
  literals and exact `+ - x` arithmetic on them) get an explicitly marked
  fallback rendering.  `str::parse::<f64>` is modelled by `parseQ`, which
  accepts an optional sign and a decimal literal with an optional fractional
  part (the exponent / `inf` / `NaN` forms of the Rust grammar are outside
  the fragment exercised here).
* The `while !self.ops.is_empty()` evaluation loop can genuinely diverge
  (self-recursive user functions), so the loop `processOps` is step-indexed
  by explicit fuel and returns `none` when the fuel is exhausted before the
  queue empties; all theorems supply sufficient fuel.
-/

namespace Comp

/-! ## Decimal strings: the model of `str::parse::<f64>`, `str::parse::<u64>`
and `to_string` -/

/-- Numeric value of a decimal digit character. -/
def charVal (c : Char) : ℕ := c.toNat - '0'.toNat

/-- Value of a big-endian string of decimal digit characters. -/
def natVal (cs : List Char) : ℕ := cs.foldl (fun acc c => 10 * acc + charVal c) 0

/-- All characters are decimal digits. -/
def allDigits (cs : List Char) : Bool := cs.all (·.isDigit)

/-- Split a character list at the first `'.'`; returns the part before it and,
when a dot is present, the part after it. -/
def splitDot : List Char → List Char × Option (List Char)
  | [] => ([], none)
  | c :: t =>
    if c = '.' then ([], some t)
    else
      let p := splitDot t
      (c :: p.1, p.2)

/-- Strip an optional leading sign, returning the sign factor and the rest. -/
def stripSignF (cs : List Char) : ℚ × List Char :=
  match cs with
  | [] => (1, [])
  | c :: t => if c = '-' then (-1, t) else if c = '+' then (1, t) else (1, c :: t)

/-- Model of `str::parse::<f64>` on the decimal fragment of the grammar:
optional sign, integer digits, optional `'.'` and fraction digits, at least
one digit in total (Rust accepts `"5."` and `".5"` but not `"."`). -/
def parseQ (s : String) : Option ℚ :=
  let p := stripSignF s.data
  match splitDot p.2 with
  | (ip, none) =>
    if allDigits ip && !ip.isEmpty then some (p.1 * (natVal ip : ℚ)) else none
  | (ip, some fp) =>
    if allDigits ip && allDigits fp && !(ip.isEmpty && fp.isEmpty) then
      some (p.1 * ((natVal ip : ℚ) + (natVal fp : ℚ) / 10 ^ fp.length))
    else none

/-- Strip an optional leading `'+'` (the unsigned-integer grammar). -/
def stripPlus (cs : List Char) : List Char :=
  match cs with
  | [] => []
  | c :: t => if c = '+' then t else c :: t

/-- Model of `str::parse::<u64>`: optional `'+'`, decimal digits, value below
`2 ^ 64` (the Rust parse fails on overflow). -/
def parseU (s : String) : Option ℕ :=
  let rest := stripPlus s.data
  if allDigits rest && !rest.isEmpty then
    let v := natVal rest
    if v < 2 ^ 64 then some v else none
  else none

/-- Little-endian base-10 digits, structurally recursive on an explicit fuel
bound (`fuel ≥ n` always suffices) so that concrete renderings reduce inside
the kernel; `digitsLE_eq_digits` identifies it with `Nat.digits 10`. -/
def digitsLEAux : ℕ → ℕ → List ℕ
  | _, 0 => []
  | 0, _ + 1 => []
  | f + 1, n + 1 => ((n + 1) % 10) :: digitsLEAux f ((n + 1) / 10)

/-- Little-endian base-10 digits of a natural number (empty for `0`). -/
def digitsLE (n : ℕ) : List ℕ := digitsLEAux n n

/-- Big-endian decimal digit characters of a natural number (empty for `0`). -/
def digitsBE (n : ℕ) : List Char := ((digitsLE n).map Nat.digitChar).reverse

/-- Decimal rendering of a natural number (the digits of `u64::to_string`). -/
def renderNat (n : ℕ) : List Char := if n = 0 then ['0'] else digitsBE n

/-- Decimal rendering of a natural number as a string. -/
def renderN (n : ℕ) : String := ⟨renderNat n⟩

/-- Digits of `m` left-padded with `'0'` to `k` characters (the fractional
block of a decimal expansion). -/
def padDigits (k m : ℕ) : List Char :=
  List.replicate (k - (digitsBE m).length) '0' ++ digitsBE m

/-- Least exponent `k` with `den ∣ 10 ^ k`, when one exists (searching up to
`den` suffices: every prime-power divisor `2 ^ a` or `5 ^ b` of `den` has
exponent below `den`). -/
def findK (den : ℕ) : Option ℕ := (List.range (den + 1)).find? (fun k => den ∣ 10 ^ k)

/-- Model of `f64::to_string`: the exact terminating decimal expansion of the
value, without trailing fraction zeros and without a decimal point for
integral values — exactly the shortest decimal Rust prints for every float
whose value is a terminating decimal.  Rationals without a terminating
expansion (unreachable from parsed decimals under the exact `+ - x`
operations) get a fallback `num/den` rendering, a documented artifact of the
float-to-rational abstraction. -/
def renderQ (q : ℚ) : String :=
  let sgn : List Char := if q.num < 0 then ['-'] else []
  match findK q.den with
  | some k =>
    let m : ℕ := q.num.natAbs * 10 ^ k / q.den
    if k = 0 then ⟨sgn ++ renderNat m⟩
    else ⟨sgn ++ renderNat (m / 10 ^ k) ++ '.' :: padDigits k (m % 10 ^ k)⟩
  | none => ⟨sgn ++ renderNat q.num.natAbs ++ '/' :: renderNat q.den⟩

/-! ## Errors and the interpreter state -/

/-- Fatal outcomes of an evaluation.  The first two model
`std::process::exit(99)` after a printed diagnostic (`check_stack_error` and
the parse failures in `pop_stack_f` / `pop_stack_u`); the `crash…` cases
model Rust panics: `Option::unwrap` on `None` in `pop_stack_f`/`pop_stack_u`
when the stack is empty, and `Vec::remove(0)` / `self.ops[0]` on an empty
operations queue in `c_fn`. -/
inductive CompError where
  | stackUnderflow (cmd : String) (minDepth : ℕ)
  | parseFailure (token : String)
  | crashUnwrapNone
  | crashIndexOOB
  deriving DecidableEq, Repr

/-- Process exit status of each fatal outcome: diagnosed errors exit with
status `99`, Rust panics abort with status `101`. -/
def CompError.exitCode : CompError → ℕ
  | .stackUnderflow _ _ => 99
  | .parseFailure _ => 99
  | .crashUnwrapNone => 101
  | .crashIndexOOB => 101

/-- Model of `struct Function { name, fops }`: a user-defined function. -/
structure Function where
  name : String
  fops : List String
  deriving DecidableEq, Repr

/-- Model of `struct Interpreter` (minus the command map `cmap`, which is a
fixed association modelled by the total function `cmap` below, and plus the
`warnings` log modelling the non-fatal warning printed by `drop` on an empty
stack).  `stack` holds its TOP element at the HEAD of the list. -/
structure Interp where
  stack : List String
  mem_a : ℚ
  mem_b : ℚ
  mem_c : ℚ
  ops : List String
  fns : List Function
  warnings : List String
  deriving DecidableEq, Repr

/-- Model of `Interpreter::new()`: empty stack and queue, registers zeroed. -/
def Interp.new : Interp :=
  { stack := [], mem_a := 0, mem_b := 0, mem_c := 0, ops := [], fns := [], warnings := [] }

/-- Oracle interpretation of the transcendental `f64` routines used by the
native operations; the registers-and-stack theorems hold for every
interpretation. -/
structure FloatFns where
  sqrt : ℚ → ℚ
  powf : ℚ → ℚ → ℚ
  sin : ℚ → ℚ
  asin : ℚ → ℚ
  cos : ℚ → ℚ
  acos : ℚ → ℚ
  tan : ℚ → ℚ
  atan : ℚ → ℚ
  log2 : ℚ → ℚ
  log10 : ℚ → ℚ
  logn : ℚ → ℚ → ℚ
  ln : ℚ → ℚ
  toRadians : ℚ → ℚ
  toDegrees : ℚ → ℚ
  pi : ℚ
  e : ℚ

/-- Trivial oracle (every routine returns `0`), used to instantiate theorems
at concrete inputs that never reach a transcendental routine. -/
def zeroFns : FloatFns :=
  { sqrt := fun _ => 0, powf := fun _ _ => 0, sin := fun _ => 0, asin := fun _ => 0,
    cos := fun _ => 0, acos := fun _ => 0, tan := fun _ => 0, atan := fun _ => 0,
    log2 := fun _ => 0, log10 := fun _ => 0, logn := fun _ _ => 0, ln := fun _ => 0,
    toRadians := fun _ => 0, toDegrees := fun _ => 0, pi := 0, e := 0 }

deriving instance DecidableEq for Except

/-- Outcome of one native operation or of a whole evaluation. -/
abbrev Res := Except CompError Interp

/-! ## Stack helpers: `pop_stack_f`, `pop_stack_u`, `check_stack_error` -/

/-- Model of `Interpreter::pop_stack_f`: pop the top of the stack (`unwrap`
panics when the stack is empty) and parse it as a float; a parse failure is
the fatal `exit(99)` diagnostic naming the offending token. -/
def popStackF (st : Interp) : Except CompError (ℚ × Interp) :=
  match st.stack with
  | [] => .error .crashUnwrapNone
  | s :: rest =>
    match parseQ s with
    | some v => .ok (v, { st with stack := rest })
    | none => .error (.parseFailure s)

/-- Model of `Interpreter::pop_stack_u` (unsigned-integer variant). -/
def popStackU (st : Interp) : Except CompError (ℕ × Interp) :=
  match st.stack with
  | [] => .error .crashUnwrapNone
  | s :: rest =>
    match parseU s with
    | some v => .ok (v, { st with stack := rest })
    | none => .error (.parseFailure s)

/-- Model of `Interpreter::check_stack_error`: fatal stack-underflow
diagnostic when fewer than `minDepth` elements are on the stack. -/
def checkStackError (st : Interp) (minDepth : ℕ) (cmd : String) : Except CompError Unit :=
  if st.stack.length < minDepth then .error (.stackUnderflow cmd minDepth) else .ok ()

/-! ## Native operations (`c_*` methods, in source order) -/

/-- Model of `c_drop`: discard the top of the stack; on an empty stack this
is tolerated — a warning is printed (recorded in `warnings`) and evaluation
continues. -/
def c_drop (st : Interp) (op : String) : Res :=
  match st.stack with
  | _ :: rest => .ok { st with stack := rest }
  | [] => .ok { st with warnings := st.warnings ++ [op] }

/-- Model of `c_dup`: after the depth-1 check, pop the top AS A FLOAT
(failing fatally on an unparseable token) and push its rendering twice. -/
def c_dup (st : Interp) (op : String) : Res := do
  checkStackError st 1 op
  let (a, st1) ← popStackF st
  pure { st1 with stack := renderQ a :: renderQ a :: st1.stack }

/-- Model of `c_swap`: exchange the top two elements. -/
def c_swap (st : Interp) (op : String) : Res := do
  checkStackError st 2 op
  match st.stack with
  | a :: b :: rest => pure { st with stack := b :: a :: rest }
  | _ => pure st

/-- Model of `c_cls` (`cls` / `clr`): empty the stack. -/
def c_cls (st : Interp) (_op : String) : Res :=
  .ok { st with stack := [] }

/-- Model of `c_roll`: move the top element to the bottom of the stack. -/
def c_roll (st : Interp) (op : String) : Res := do
  checkStackError st 1 op
  match st.stack with
  | t :: rest => pure { st with stack := rest ++ [t] }
  | [] => pure st

/-- Model of `c_rot`: move the bottom element to the top of the stack. -/
def c_rot (st : Interp) (op : String) : Res := do
  checkStackError st 1 op
  match st.stack.getLast? with
  | some bo => pure { st with stack := bo :: st.stack.dropLast }
  | none => pure st

/-- Model of `c_store_a` (`sa` / `.a`): pop the top into register `a`. -/
def c_store_a (st : Interp) (op : String) : Res := do
  checkStackError st 1 op
  let (a, st1) ← popStackF st
  pure { st1 with mem_a := a }

/-- Model of `c_push_a` (`a`): push the rendering of register `a`. -/
def c_push_a (st : Interp) (_op : String) : Res :=
  .ok { st with stack := renderQ st.mem_a :: st.stack }

/-- Model of `c_store_b` (`sb` / `.b`). -/
def c_store_b (st : Interp) (op : String) : Res := do
  checkStackError st 1 op
  let (a, st1) ← popStackF st
  pure { st1 with mem_b := a }

/-- Model of `c_push_b` (`b`). -/
def c_push_b (st : Interp) (_op : String) : Res :=
  .ok { st with stack := renderQ st.mem_b :: st.stack }

/-- Model of `c_store_c` (`sc` / `.c`). -/
def c_store_c (st : Interp) (op : String) : Res := do
  checkStackError st 1 op
  let (a, st1) ← popStackF st
  pure { st1 with mem_c := a }

/-- Model of `c_push_c` (`c`). -/
def c_push_c (st : Interp) (_op : String) : Res :=
  .ok { st with stack := renderQ st.mem_c :: st.stack }

/-- Model of `c_add` (`+`): pop `b` then `a`, push `a + b`. -/
def c_add (st : Interp) (op : String) : Res := do
  checkStackError st 2 op
  let (b, st1) ← popStackF st
  let (a, st2) ← popStackF st1
  pure { st2 with stack := renderQ (a + b) :: st2.stack }

/-- Loop body of `c_add_all`: `while self.stack.len() > 1 { self.c_add(&op) }`.
The explicit fuel only bounds the iteration count; fuel `st.stack.length` is
always sufficient because every successful `c_add` shrinks the stack by one
element, so the guard fails before the fuel runs out. -/
def addLoop (op : String) : ℕ → Interp → Res
  | 0, st => pure st
  | n + 1, st =>
    if st.stack.length > 1 then do
      let st1 ← c_add st op
      addLoop op n st1
    else pure st

/-- Model of `c_add_all` (`+_`): after a depth-2 check, fold the whole stack
with `c_add` until one value remains. -/
def c_add_all (st : Interp) (op : String) : Res := do
  checkStackError st 2 op
  addLoop op st.stack.length st

/-- Model of `c_sub` (`-`): pop `b` then `a`, push `a - b`. -/
def c_sub (st : Interp) (op : String) : Res := do
  checkStackError st 2 op
  let (b, st1) ← popStackF st
  let (a, st2) ← popStackF st1
  pure { st2 with stack := renderQ (a - b) :: st2.stack }

/-- Model of `c_mult` (`x`): pop `b` then `a`, push `a * b`. -/
def c_mult (st : Interp) (op : String) : Res := do
  checkStackError st 2 op
  let (b, st1) ← popStackF st
  let (a, st2) ← popStackF st1
  pure { st2 with stack := renderQ (a * b) :: st2.stack }

/-- Loop body of `c_mult_all`; fuel as in `addLoop`. -/
def multLoop (op : String) : ℕ → Interp → Res
  | 0, st => pure st
  | n + 1, st =>
    if st.stack.length > 1 then do
      let st1 ← c_mult st op
      multLoop op n st1
    else pure st

/-- Model of `c_mult_all` (`x_`): after a depth-2 check, fold the whole stack
with `c_mult` until one value remains. -/
def c_mult_all (st : Interp) (op : String) : Res := do
  checkStackError st 2 op
  multLoop op st.stack.length st

/-- Model of `c_div` (`/`): pop `b` then `a`, push `a / b` (exact rational
division; the float infinities produced by a zero divisor are outside the
abstraction). -/
def c_div (st : Interp) (op : String) : Res := do
  checkStackError st 2 op
  let (b, st1) ← popStackF st
  let (a, st2) ← popStackF st1
  pure { st2 with stack := renderQ (a / b) :: st2.stack }

/-- Model of `c_chs`: negate the top (`-1.0 * a`). -/
def c_chs (st : Interp) (op : String) : Res := do
  checkStackError st 1 op
  let (a, st1) ← popStackF st
  pure { st1 with stack := renderQ (-1 * a) :: st1.stack }

/-- Model of `c_abs`. -/
def c_abs (st : Interp) (op : String) : Res := do
  checkStackError st 1 op
  let (a, st1) ← popStackF st
  pure { st1 with stack := renderQ |a| :: st1.stack }

/-- Rounding half away from zero, the behavior of `f64::round`. -/
def roundAway (q : ℚ) : ℚ :=
  if q < 0 then -(⌊-q + 1 / 2⌋ : ℤ) else (⌊q + 1 / 2⌋ : ℤ)

/-- Model of `c_round` (`round` / `int`). -/
def c_round (st : Interp) (op : String) : Res := do
  checkStackError st 1 op
  let (a, st1) ← popStackF st
  pure { st1 with stack := renderQ (roundAway a) :: st1.stack }

/-- Model of `c_inv`: reciprocal `1.0 / a`. -/
def c_inv (st : Interp) (op : String) : Res := do
  checkStackError st 1 op
  let (a, st1) ← popStackF st
  pure { st1 with stack := renderQ (1 / a) :: st1.stack }

/-- Model of `c_sqrt` (oracle square root). -/
def c_sqrt (F : FloatFns) (st : Interp) (op : String) : Res := do
  checkStackError st 1 op
  let (a, st1) ← popStackF st
  pure { st1 with stack := renderQ (F.sqrt a) :: st1.stack }

/-- Model of `c_throot`: pop `b` then `a`, push `a.powf(1.0 / b)`. -/
def c_throot (F : FloatFns) (st : Interp) (op : String) : Res := do
  checkStackError st 2 op
  let (b, st1) ← popStackF st
  let (a, st2) ← popStackF st1
  pure { st2 with stack := renderQ (F.powf a (1 / b)) :: st2.stack }

/-- Model of `c_proot`: pop `c`, `b`, `a` and push the four components of the
roots of `a·x² + b·x + c`, transcribed term for term from the source --
including the missing parenthesization in the real-root branch, which pushes
`-1.0*b + disc.sqrt() / (2.0*a)` (the division binds only the square-root
term). -/
def c_proot (F : FloatFns) (st : Interp) (op : String) : Res := do
  checkStackError st 3 op
  let (c, st1) ← popStackF st
  let (b, st2) ← popStackF st1
  let (a, st3) ← popStackF st2
  if b * b - 4 * a * c < 0 then
    let s : List String :=
      renderQ (-1 * F.sqrt (4 * a * c - b * b) / (2 * a)) ::
      renderQ (-1 * b / (2 * a)) ::
      renderQ (F.sqrt (4 * a * c - b * b) / (2 * a)) ::
      renderQ (-1 * b / (2 * a)) :: st3.stack
    pure { st3 with stack := s }
  else
    let s : List String :=
      renderQ 0 ::
      renderQ (-1 * b - F.sqrt (b * b - 4 * a * c) / (2 * a)) ::
      renderQ 0 ::
      renderQ (-1 * b + F.sqrt (b * b - 4 * a * c) / (2 * a)) :: st3.stack
    pure { st3 with stack := s }

/-- The four stack entries pushed by the complex branch of `c_proot`
(top of stack first; push order is `real1, imag1, real2, imag2`). -/
def prootComplexStack (F : FloatFns) (a b c : ℚ) (rest : List String) : List String :=
  renderQ (-1 * F.sqrt (4 * a * c - b * b) / (2 * a)) ::
  renderQ (-1 * b / (2 * a)) ::
  renderQ (F.sqrt (4 * a * c - b * b) / (2 * a)) ::
  renderQ (-1 * b / (2 * a)) :: rest

/-- The four stack entries pushed by the real branch of `c_proot` (top of
stack first), with the source's missing parenthesization reproduced
verbatim: the real parts are `-1*b ± sqrt(disc)/(2*a)`. -/
def prootRealStack (F : FloatFns) (a b c : ℚ) (rest : List String) : List String :=
  renderQ 0 ::
  renderQ (-1 * b - F.sqrt (b * b - 4 * a * c) / (2 * a)) ::
  renderQ 0 ::
  renderQ (-1 * b + F.sqrt (b * b - 4 * a * c) / (2 * a)) :: rest

/-- Model of `c_exp` (`^` / `exp`): pop `b` then `a`, push `a.powf(b)`. -/
def c_exp (F : FloatFns) (st : Interp) (op : String) : Res := do
  checkStackError st 2 op
  let (b, st1) ← popStackF st
  let (a, st2) ← popStackF st1
  pure { st2 with stack := renderQ (F.powf a b) :: st2.stack }

/-- Truncation toward zero, the rounding of Rust's float remainder. -/
def ratTrunc (q : ℚ) : ℤ := if q < 0 then -⌊-q⌋ else ⌊q⌋

/-- Model of `c_mod` (`%` / `mod`): float remainder `a % b`
(`a - b * (a / b).trunc()`). -/
def c_mod (st : Interp) (op : String) : Res := do
  checkStackError st 2 op
  let (b, st1) ← popStackF st
  let (a, st2) ← popStackF st1
  pure { st2 with stack := renderQ (a - b * (ratTrunc (a / b) : ℤ)) :: st2.stack }

/-- Descending product `n * (n-1) * ... * 2` (the unfolding of the recursive
`Interpreter::factorial` once its argument is integral). -/
def factAux : ℕ → ℚ
  | 0 => 1
  | 1 => 1
  | n + 2 => (n + 2 : ℕ) * factAux (n + 1)

/-- Model of `Interpreter::factorial`: floor the argument, treat anything
below `2` as `1`, else multiply down to `2`. -/
def factorial (o : ℚ) : ℚ :=
  if ⌊o⌋ < 2 then 1 else factAux ⌊o⌋.toNat

/-- Model of `c_fact` (`!`). -/
def c_fact (st : Interp) (op : String) : Res := do
  checkStackError st 1 op
  let (a, st1) ← popStackF st
  pure { st1 with stack := renderQ (factorial a) :: st1.stack }

/-- Model of the recursive `Interpreter::gcd` on unsigned 64-bit values. -/
def gcdRec (a b : ℕ) : ℕ :=
  if hb : b ≠ 0 then gcdRec b (a % b) else a
termination_by b
decreasing_by exact Nat.mod_lt _ (Nat.pos_of_ne_zero hb)

/-- Model of `c_gcd`: pop `b` then `a` as unsigned integers, push their GCD
(rendered with the integer `to_string`). -/
def c_gcd (st : Interp) (op : String) : Res := do
  checkStackError st 2 op
  let (b, st1) ← popStackU st
  let (a, st2) ← popStackU st1
  pure { st2 with stack := renderN (gcdRec a b) :: st2.stack }

/-- Model of `c_pi`: push the oracle's value of `std::f64::consts::PI`. -/
def c_pi (F : FloatFns) (st : Interp) (_op : String) : Res :=
  .ok { st with stack := renderQ F.pi :: st.stack }

/-- Model of `c_euler` (`e`): push the oracle's value of
`std::f64::consts::E`. -/
def c_euler (F : FloatFns) (st : Interp) (_op : String) : Res :=
  .ok { st with stack := renderQ F.e :: st.stack }

/-- Model of `c_dtor` (`d_r`): degrees to radians. -/
def c_dtor (F : FloatFns) (st : Interp) (op : String) : Res := do
  checkStackError st 1 op
  let (a, st1) ← popStackF st
  pure { st1 with stack := renderQ (F.toRadians a) :: st1.stack }

/-- Model of `c_rtod` (`r_d`): radians to degrees. -/
def c_rtod (F : FloatFns) (st : Interp) (op : String) : Res := do
  checkStackError st 1 op
  let (a, st1) ← popStackF st
  pure { st1 with stack := renderQ (F.toDegrees a) :: st1.stack }

/-- Model of `c_sin`. -/
def c_sin (F : FloatFns) (st : Interp) (op : String) : Res := do
  checkStackError st 1 op
  let (a, st1) ← popStackF st
  pure { st1 with stack := renderQ (F.sin a) :: st1.stack }

/-- Model of `c_asin`. -/
def c_asin (F : FloatFns) (st : Interp) (op : String) : Res := do
  checkStackError st 1 op
  let (a, st1) ← popStackF st
  pure { st1 with stack := renderQ (F.asin a) :: st1.stack }

/-- Model of `c_cos`. -/
def c_cos (F : FloatFns) (st : Interp) (op : String) : Res := do
  checkStackError st 1 op
  let (a, st1) ← popStackF st
  pure { st1 with stack := renderQ (F.cos a) :: st1.stack }

/-- Model of `c_acos`. -/
def c_acos (F : FloatFns) (st : Interp) (op : String) : Res := do
  checkStackError st 1 op
  let (a, st1) ← popStackF st
  pure { st1 with stack := renderQ (F.acos a) :: st1.stack }

/-- Model of `c_tan`. -/
def c_tan (F : FloatFns) (st : Interp) (op : String) : Res := do
  checkStackError st 1 op
  let (a, st1) ← popStackF st
  pure { st1 with stack := renderQ (F.tan a) :: st1.stack }

/-- Model of `c_atan`. -/
def c_atan (F : FloatFns) (st : Interp) (op : String) : Res := do
  checkStackError st 1 op
  let (a, st1) ← popStackF st
  pure { st1 with stack := renderQ (F.atan a) :: st1.stack }

/-- Model of `c_log10` (`log` / `log10`). -/
def c_log10 (F : FloatFns) (st : Interp) (op : String) : Res := do
  checkStackError st 1 op
  let (a, st1) ← popStackF st
  pure { st1 with stack := renderQ (F.log10 a) :: st1.stack }

/-- Model of `c_log2`. -/
def c_log2 (F : FloatFns) (st : Interp) (op : String) : Res := do
  checkStackError st 1 op
  let (a, st1) ← popStackF st
  pure { st1 with stack := renderQ (F.log2 a) :: st1.stack }

/-- Model of `c_logn`: the source checks a minimum stack depth of ONE and
then pops TWO operands (`b` = base, then `a`), pushing `a.log(b)`; on a
one-element stack the second pop is an `unwrap` of `None`, a panic. -/
def c_logn (F : FloatFns) (st : Interp) (op : String) : Res := do
  checkStackError st 1 op
  let (b, st1) ← popStackF st
  let (a, st2) ← popStackF st1
  pure { st2 with stack := renderQ (F.logn a b) :: st2.stack }

/-- Model of `c_ln`. -/
def c_ln (F : FloatFns) (st : Interp) (op : String) : Res := do
  checkStackError st 1 op
  let (a, st1) ← popStackF st
  pure { st1 with stack := renderQ (F.ln a) :: st1.stack }

/-! ## Control flow: function definition and comment skipping -/

/-- Body-collection loop of `c_fn`: consume queue tokens into the body until
an `"end"` token (discarded); `none` models the panic of indexing
`self.ops[0]` when the queue empties before `"end"` is found. -/
def buildFn : List String → Option (List String × List String)
  | [] => none
  | t :: rest =>
    if t = "end" then some ([], rest)
    else (buildFn rest).map (fun p => (t :: p.1, p.2))

/-- Model of `c_fn`: consume the next queue token as the function name
(`Vec::remove(0)` panics if the queue is empty), collect the body until
`"end"`, and append the function to the function table. -/
def c_fn (st : Interp) (_op : String) : Res :=
  match st.ops with
  | [] => .error .crashIndexOOB
  | fnName :: rest =>
    match buildFn rest with
    | some p => .ok { st with fns := st.fns ++ [⟨fnName, p.1⟩], ops := p.2 }
    | none => .error .crashIndexOOB

/-- Model of `Interpreter::is_user_function` followed by the body lookup:
the FIRST function table entry whose name matches. -/
def findFn (fns : List Function) (op : String) : Option Function :=
  fns.find? (fun f => f.name = op)

/-- Skipping loop of `c_comment`: discard queue tokens, tracking the nesting
level of `"("` / `")"`, until the matching `")"` (discarded) or until the
queue empties (in which case skipping simply stops — no error). -/
def commentLoop : ℕ → List String → List String
  | _, [] => []
  | nested, t :: rest =>
    if t = "(" then commentLoop (nested + 1) rest
    else if t = ")" then
      if nested = 0 then rest else commentLoop (nested - 1) rest
    else commentLoop nested rest

/-- Model of `c_comment` (`(`). -/
def c_comment (st : Interp) (_op : String) : Res :=
  .ok { st with ops := commentLoop 0 st.ops }

/-! ## Dispatch and the evaluation loop -/

/-- Model of the command map built by `Interpreter::init`: the fixed
association from every registered command spelling to its native operation
(`contains_key` + indexing is modelled by the `Option`). -/
def cmap (F : FloatFns) (name : String) : Option (Interp → String → Res) :=
  match name with
  | "drop" => some c_drop
  | "dup" => some c_dup
  | "swap" => some c_swap
  | "cls" => some c_cls
  | "clr" => some c_cls
  | "roll" => some c_roll
  | "rot" => some c_rot
  | "sa" => some c_store_a
  | ".a" => some c_store_a
  | "a" => some c_push_a
  | "sb" => some c_store_b
  | ".b" => some c_store_b
  | "b" => some c_push_b
  | "sc" => some c_store_c
  | ".c" => some c_store_c
  | "c" => some c_push_c
  | "+" => some c_add
  | "+_" => some c_add_all
  | "-" => some c_sub
  | "x" => some c_mult
  | "x_" => some c_mult_all
  | "/" => some c_div
  | "chs" => some c_chs
  | "abs" => some c_abs
  | "round" => some c_round
  | "int" => some c_round
  | "inv" => some c_inv
  | "sqrt" => some (c_sqrt F)
  | "throot" => some (c_throot F)
  | "proot" => some (c_proot F)
  | "^" => some (c_exp F)
  | "exp" => some (c_exp F)
  | "%" => some c_mod
  | "mod" => some c_mod
  | "!" => some c_fact
  | "gcd" => some c_gcd
  | "pi" => some (c_pi F)
  | "e" => some (c_euler F)
  | "d_r" => some (c_dtor F)
  | "r_d" => some (c_rtod F)
  | "sin" => some (c_sin F)
  | "asin" => some (c_asin F)
  | "cos" => some (c_cos F)
  | "acos" => some (c_acos F)
  | "tan" => some (c_tan F)
  | "atan" => some (c_atan F)
  | "log2" => some (c_log2 F)
  | "log" => some (c_log10 F)
  | "log10" => some (c_log10 F)
  | "logn" => some (c_logn F)
  | "ln" => some (c_ln F)
  | "fn" => some c_fn
  | "(" => some c_comment
  | _ => none

/-- The front-insertion loop of the user-function branch of `process_node`:
`for i in (0..fops.len()).rev() { self.ops.insert(0, fops[i]) }`, written as
the right fold that performs the same descending sequence of
insert-at-front operations. -/
def insertOpsFront (fops ops : List String) : List String :=
  List.foldr List.cons ops fops

/-- Model of `Interpreter::process_node`: dispatch one dequeued token — a
registered native command is invoked; otherwise a user-function name has its
body inserted at the front of the queue; otherwise the token is pushed onto
the stack verbatim. -/
def processNode (F : FloatFns) (st : Interp) (op : String) : Res :=
  match cmap F op with
  | some f => f st op
  | none =>
    match findFn st.fns op with
    | some f => .ok { st with ops := insertOpsFront f.fops st.ops }
    | none => .ok { st with stack := op :: st.stack }

/-- Model of `Interpreter::process_ops`: dequeue and process tokens until the
queue is empty.  The loop can genuinely diverge (self-recursive functions),
so it is step-indexed: `none` means the fuel ran out before the queue
emptied. -/
def processOps (F : FloatFns) : ℕ → Interp → Option Res
  | 0, st => match st.ops with
    | [] => some (.ok st)
    | _ => none
  | n + 1, st =>
    match st.ops with
    | [] => some (.ok st)
    | op :: rest =>
      match processNode F { st with ops := rest } op with
      | .ok st1 => processOps F n st1
      | .error e => some (.error e)

/-- Evaluate a token sequence from the freshly constructed interpreter
state, as `main` does after staging the tokens into `ops`. -/
def evalProgram (F : FloatFns) (fuel : ℕ) (tokens : List String) : Option Res :=
  processOps F fuel { Interp.new with ops := tokens }

/-- The observable outcome of a run: the final operand stack (top first) on
normal termination, the fatal error otherwise, `none` if the supplied fuel
ran out. -/
def runStacks (F : FloatFns) (fuel : ℕ) (tokens : List String) :
    Option (Except CompError (List String)) :=
  (evalProgram F fuel tokens).map (Except.map Interp.stack)

/-! ## Digit-string lemmas: the rendering/parsing round trip -/

theorem digitsLEAux_eq (f : ℕ) : ∀ n : ℕ, n ≤ f → digitsLEAux f n = Nat.digits 10 n := by
  induction f with
  | zero =>
    intro n hn
    interval_cases n
    simp [digitsLEAux]
  | succ f ih =>
    intro n hn
    match n with
    | 0 => simp [digitsLEAux]
    | n + 1 =>
      rw [digitsLEAux, Nat.digits_def' (b := 10) (by norm_num) (Nat.succ_pos n)]
      have hdiv : (n + 1) / 10 ≤ f := by
        have := Nat.div_lt_self (Nat.succ_pos n) (by norm_num : 1 < 10)
        omega
      rw [ih _ hdiv]

theorem digitsLE_eq (n : ℕ) : digitsLE n = Nat.digits 10 n :=
  digitsLEAux_eq n n le_rfl

theorem charVal_digitChar {d : ℕ} (h : d < 10) : charVal (Nat.digitChar d) = d := by
  interval_cases d <;> rfl

theorem isDigit_digitChar {d : ℕ} (h : d < 10) : (Nat.digitChar d).isDigit = true := by
  interval_cases d <;> rfl

theorem mem_digitsBE_isDigit {n : ℕ} {c : Char} (hc : c ∈ digitsBE n) : c.isDigit = true := by
  rw [digitsBE, digitsLE_eq, List.mem_reverse, List.mem_map] at hc
  obtain ⟨d, hd, rfl⟩ := hc
  exact isDigit_digitChar (Nat.digits_lt_base (by norm_num) hd)

theorem mem_renderNat_isDigit {n : ℕ} {c : Char} (hc : c ∈ renderNat n) : c.isDigit = true := by
  rw [renderNat] at hc
  split at hc
  · simp at hc
    subst hc
    rfl
  · exact mem_digitsBE_isDigit hc

theorem natVal_cons (c : Char) (cs : List Char) :
    natVal (c :: cs) = (cs.foldl (fun acc c => 10 * acc + charVal c) (charVal c)) := by
  simp [natVal]

theorem foldl_digit_init (cs : List Char) (a : ℕ) :
    cs.foldl (fun acc c => 10 * acc + charVal c) a = a * 10 ^ cs.length + natVal cs := by
  induction cs generalizing a with
  | nil => simp [natVal]
  | cons c cs ih =>
    rw [List.foldl_cons, ih, natVal_cons, ih (charVal c), List.length_cons]
    ring

theorem natVal_append (l₁ l₂ : List Char) :
    natVal (l₁ ++ l₂) = natVal l₁ * 10 ^ l₂.length + natVal l₂ := by
  rw [natVal, List.foldl_append, foldl_digit_init]
  rfl

theorem natVal_digitsBE (n : ℕ) : natVal (digitsBE n) = n := by
  suffices h : ∀ L : List ℕ, (∀ d ∈ L, d < 10) →
      natVal ((L.map Nat.digitChar).reverse) = Nat.ofDigits 10 L by
    rw [digitsBE, digitsLE_eq, h _ (fun d hd => Nat.digits_lt_base (by norm_num) hd),
      Nat.ofDigits_digits]
  intro L
  induction L with
  | nil => intro _; simp [natVal]
  | cons d T ih =>
    intro hlt
    rw [List.map_cons, List.reverse_cons, natVal_append, ih (fun x hx => hlt x (.tail _ hx)),
      Nat.ofDigits_cons]
    have : natVal [Nat.digitChar d] = d := by
      simpa [natVal] using charVal_digitChar (hlt d (.head _))
    rw [this]
    simp
    ring

theorem natVal_renderNat (n : ℕ) : natVal (renderNat n) = n := by
  rw [renderNat]
  split
  · subst ‹n = 0›
    rfl
  · exact natVal_digitsBE n

theorem natVal_replicate_zeros (j : ℕ) (cs : List Char) :
    natVal (List.replicate j '0' ++ cs) = natVal cs := by
  rw [natVal_append]
  suffices h : natVal (List.replicate j '0') = 0 by simp [h]
  induction j with
  | zero => rfl
  | succ j ih => simpa [List.replicate_succ, natVal_cons, charVal] using ih

theorem digitsBE_length_le {m k : ℕ} (h : m < 10 ^ k) : (digitsBE m).length ≤ k := by
  rw [digitsBE, digitsLE_eq, List.length_reverse, List.length_map]
  rcases Nat.eq_zero_or_pos m with hm | hm
  · simp [hm]
  · rw [Nat.digits_len 10 m (by norm_num) (Nat.pos_iff_ne_zero.mp hm)]
    have := (Nat.lt_pow_iff_log_lt (by norm_num : 1 < 10) (Nat.pos_iff_ne_zero.mp hm)).mp h
    omega

theorem padDigits_length {k m : ℕ} (h : m < 10 ^ k) : (padDigits k m).length = k := by
  have := digitsBE_length_le h
  simp [padDigits]
  omega

theorem natVal_padDigits (k m : ℕ) : natVal (padDigits k m) = m := by
  rw [padDigits, natVal_replicate_zeros, natVal_digitsBE]

theorem allDigits_eq_true {cs : List Char} (h : ∀ c ∈ cs, c.isDigit = true) :
    allDigits cs = true := by
  simpa [allDigits, List.all_eq_true] using h

theorem allDigits_renderNat (n : ℕ) : allDigits (renderNat n) = true :=
  allDigits_eq_true fun _ hc => mem_renderNat_isDigit hc

theorem allDigits_padDigits (k m : ℕ) : allDigits (padDigits k m) = true := by
  refine allDigits_eq_true fun c hc => ?_
  rw [padDigits, List.mem_append] at hc
  rcases hc with hc | hc
  · rw [List.eq_of_mem_replicate hc]
    rfl
  · exact mem_digitsBE_isDigit hc

theorem splitDot_of_not_mem {cs : List Char} (h : '.' ∉ cs) : splitDot cs = (cs, none) := by
  induction cs with
  | nil => rfl
  | cons c t ih =>
    have hc : ¬c = '.' := fun hc => h (hc ▸ List.mem_cons_self c t)
    rw [splitDot, if_neg hc, ih (fun ht => h (List.mem_cons_of_mem c ht))]

theorem splitDot_append {A : List Char} (B : List Char) (h : '.' ∉ A) :
    splitDot (A ++ '.' :: B) = (A, some B) := by
  induction A with
  | nil => simp [splitDot]
  | cons c t ih =>
    have hc : ¬c = '.' := fun hc => h (hc ▸ List.mem_cons_self c t)
    rw [List.cons_append, splitDot, if_neg hc, ih (fun ht => h (List.mem_cons_of_mem c ht))]

theorem not_dot_of_isDigit {c : Char} (h : c.isDigit = true) : c ≠ '.' := by
  intro hc
  subst hc
  simp [Char.isDigit] at h

theorem not_dash_of_isDigit {c : Char} (h : c.isDigit = true) : c ≠ '-' := by
  intro hc
  subst hc
  simp [Char.isDigit] at h

theorem not_plus_of_isDigit {c : Char} (h : c.isDigit = true) : c ≠ '+' := by
  intro hc
  subst hc
  simp [Char.isDigit] at h

theorem renderNat_ne_nil (n : ℕ) : renderNat n ≠ [] := by
  rw [renderNat]
  split
  · simp
  · rw [digitsBE, digitsLE_eq]
    simpa using Nat.digits_ne_nil_iff_ne_zero.mpr ‹¬n = 0›

theorem stripSignF_digits {cs : List Char} (h1 : ∀ c ∈ cs, c.isDigit = true) :
    stripSignF cs = (1, cs) := by
  match cs with
  | [] => rfl
  | c :: t =>
    have hd := h1 c (.head _)
    rw [stripSignF, if_neg (not_dash_of_isDigit hd), if_neg (not_plus_of_isDigit hd)]

/-! ## Existence of a terminating decimal expansion -/

theorem dvd_ten_pow_self : ∀ n : ℕ, 0 < n → (∃ k, n ∣ 10 ^ k) → n ∣ 10 ^ n := by
  intro n
  induction n using Nat.strong_induction_on with
  | _ n ih =>
    intro hn hk
    obtain ⟨k, hk⟩ := hk
    by_cases h1 : n = 1
    · subst h1
      exact one_dvd _
    · have hp : n.minFac.Prime := Nat.minFac_prime h1
      have hpn : n.minFac ∣ n := Nat.minFac_dvd n
      have hp10 : n.minFac ∣ 10 := hp.dvd_of_dvd_pow (hpn.trans hk)
      have hm : n.minFac * (n / n.minFac) = n := Nat.mul_div_cancel' hpn
      have hmpos : 0 < n / n.minFac := by
        rcases Nat.eq_zero_or_pos (n / n.minFac) with h0 | h0
        · rw [h0, Nat.mul_zero] at hm
          omega
        · exact h0
      have hmlt : n / n.minFac < n := Nat.div_lt_self hn hp.one_lt
      have hmdvd : n / n.minFac ∣ 10 ^ k := (Nat.div_dvd_of_dvd hpn).trans hk
      have ihm : n / n.minFac ∣ 10 ^ (n / n.minFac) := ih _ hmlt hmpos ⟨k, hmdvd⟩
      have hstep : n ∣ 10 ^ (n / n.minFac + 1) := by
        have hmul : n.minFac * (n / n.minFac) ∣ 10 * 10 ^ (n / n.minFac) :=
          mul_dvd_mul hp10 ihm
        rw [hm] at hmul
        rw [pow_succ]
        exact hmul.trans (dvd_of_eq (mul_comm _ _))
      exact hstep.trans (pow_dvd_pow 10 (by omega))

theorem findK_eq_some {den : ℕ} (hpos : 0 < den) (h : ∃ k, den ∣ 10 ^ k) :
    ∃ k, findK den = some k ∧ den ∣ 10 ^ k := by
  have hd : den ∣ 10 ^ den := dvd_ten_pow_self den hpos h
  have hsome : (findK den).isSome := by
    rw [findK, List.find?_isSome]
    exact ⟨den, List.mem_range.mpr (by omega), by simpa using hd⟩
  obtain ⟨k, hk⟩ := Option.isSome_iff_exists.mp hsome
  refine ⟨k, hk, ?_⟩
  rw [findK] at hk
  simpa using List.find?_some hk

/-- A rational is a terminating decimal: an integer divided by a power of 10.
Every value produced by `parseQ`, and every sum, difference or product of
such values, satisfies this — these are exactly the stack values exercised
by the fold claims. -/
def TDec (q : ℚ) : Prop := ∃ (z : ℤ) (k : ℕ), q = (z : ℚ) / 10 ^ k

theorem TDec.den_dvd {q : ℚ} (h : TDec q) : ∃ k, q.den ∣ 10 ^ k := by
  obtain ⟨z, k, rfl⟩ := h
  refine ⟨k, ?_⟩
  have h10 : ((10 : ℚ) ^ k) = ((10 ^ k : ℤ) : ℚ) := by push_cast; ring
  rw [h10, ← Rat.divInt_eq_div]
  have hdvd := Rat.den_dvd z (10 ^ k)
  have hcast : ((10 : ℤ) ^ k) = (((10 : ℕ) ^ k : ℕ) : ℤ) := by push_cast; ring
  rw [hcast] at hdvd
  exact_mod_cast hdvd

theorem TDec.add {a b : ℚ} (ha : TDec a) (hb : TDec b) : TDec (a + b) := by
  obtain ⟨z1, k1, rfl⟩ := ha
  obtain ⟨z2, k2, rfl⟩ := hb
  refine ⟨z1 * 10 ^ k2 + z2 * 10 ^ k1, k1 + k2, ?_⟩
  have h1 : ((10 : ℚ) ^ k1) ≠ 0 := by positivity
  have h2 : ((10 : ℚ) ^ k2) ≠ 0 := by positivity
  rw [pow_add, div_add_div _ _ h1 h2]
  congr 1
  push_cast
  ring

theorem TDec.mul {a b : ℚ} (ha : TDec a) (hb : TDec b) : TDec (a * b) := by
  obtain ⟨z1, k1, rfl⟩ := ha
  obtain ⟨z2, k2, rfl⟩ := hb
  refine ⟨z1 * z2, k1 + k2, ?_⟩
  rw [pow_add, div_mul_div_comm]
  congr 1
  push_cast
  ring

theorem TDec.intCast (z : ℤ) : TDec (z : ℚ) := ⟨z, 0, by simp⟩

theorem TDec.natCast (n : ℕ) : TDec (n : ℚ) := ⟨n, 0, by push_cast; ring⟩

theorem TDec.neg {a : ℚ} (h : TDec a) : TDec (-a) := by
  obtain ⟨z, k, rfl⟩ := h
  exact ⟨-z, k, by push_cast; ring⟩

theorem TDec.decimal (n m L : ℕ) : TDec ((n : ℚ) + (m : ℚ) / 10 ^ L) := by
  refine ⟨n * 10 ^ L + m, L, ?_⟩
  have hL : ((10 : ℚ) ^ L) ≠ 0 := by positivity
  rw [eq_div_iff hL, add_mul, div_mul_cancel₀ _ hL]
  push_cast
  ring

theorem stripSignF_fst (cs : List Char) :
    (stripSignF cs).1 = 1 ∨ (stripSignF cs).1 = -1 := by
  match cs with
  | [] => exact Or.inl rfl
  | c :: t =>
    rw [stripSignF]
    split_ifs <;> simp

theorem parseQ_TDec {s : String} {q : ℚ} (h : parseQ s = some q) : TDec q := by
  have hsgn := stripSignF_fst s.data
  simp only [parseQ] at h
  split at h
  next ip heq =>
    split_ifs at h with hc
    · injection h with h
      subst h
      rcases hsgn with h1 | h1
      · rw [h1, one_mul]
        exact TDec.natCast _
      · rw [h1, neg_one_mul]
        exact (TDec.natCast _).neg
  next ip fp heq =>
    split_ifs at h with hc
    · injection h with h
      subst h
      rcases hsgn with h1 | h1
      · rw [h1, one_mul]
        exact TDec.decimal _ _ _
      · rw [h1, neg_one_mul]
        exact (TDec.decimal _ _ _).neg

/-! ## The round trip: parsing a rendered value gives the value back -/

theorem stripSignF_head {c : Char} {cs : List Char} (h : c.isDigit = true) :
    stripSignF (c :: cs) = (1, c :: cs) := by
  rw [stripSignF, if_neg (not_dash_of_isDigit h), if_neg (not_plus_of_isDigit h)]

theorem stripSignF_dash (cs : List Char) : stripSignF ('-' :: cs) = (-1, cs) := by
  rw [stripSignF, if_pos rfl]

theorem renderNat_isEmpty (m : ℕ) : (renderNat m).isEmpty = false := by
  rcases hR : renderNat m with _ | ⟨c, t⟩
  · exact absurd hR (renderNat_ne_nil m)
  · rfl

theorem stripSignF_renderNat_append (m : ℕ) (tl : List Char) :
    stripSignF (renderNat m ++ tl) = (1, renderNat m ++ tl) := by
  rcases hR : renderNat m with _ | ⟨c, t⟩
  · exact absurd hR (renderNat_ne_nil m)
  · have hd : c.isDigit = true := mem_renderNat_isDigit (by rw [hR]; exact .head _)
    rw [List.cons_append, stripSignF_head hd]

theorem dot_not_mem_renderNat (m : ℕ) : '.' ∉ renderNat m := by
  intro hc
  exact not_dot_of_isDigit (mem_renderNat_isDigit hc) rfl

theorem parseQ_int_string (m : ℕ) (sgn : ℚ) (hs : sgn = 1 ∨ sgn = -1) :
    parseQ ⟨(if sgn = -1 then ['-'] else []) ++ renderNat m⟩ = some (sgn * (m : ℚ)) := by
  have hdata : (String.mk ((if sgn = -1 then ['-'] else []) ++ renderNat m)).data
      = (if sgn = -1 then ['-'] else []) ++ renderNat m := rfl
  have hsplit : splitDot (renderNat m) = (renderNat m, none) :=
    splitDot_of_not_mem (dot_not_mem_renderNat m)
  have hstrip : stripSignF ((if sgn = -1 then ['-'] else []) ++ renderNat m)
      = (sgn, renderNat m) := by
    rcases hs with rfl | rfl
    · rw [if_neg (by norm_num), List.nil_append]
      simpa using stripSignF_renderNat_append m []
    · rw [if_pos rfl, List.singleton_append, stripSignF_dash]
  rw [parseQ]
  simp only [hdata, hstrip, hsplit]
  rw [if_pos (by simp [allDigits_renderNat, renderNat_isEmpty]), natVal_renderNat]

theorem parseQ_dec_string (mI mF k : ℕ) (hk : mF < 10 ^ k) (sgn : ℚ) (hs : sgn = 1 ∨ sgn = -1) :
    parseQ ⟨(if sgn = -1 then ['-'] else []) ++ renderNat mI ++ '.' :: padDigits k mF⟩
      = some (sgn * ((mI : ℚ) + (mF : ℚ) / 10 ^ k)) := by
  have hdata : (String.mk ((if sgn = -1 then ['-'] else [])
        ++ renderNat mI ++ '.' :: padDigits k mF)).data
      = (if sgn = -1 then ['-'] else []) ++ renderNat mI ++ '.' :: padDigits k mF := rfl
  have hsplit : splitDot (renderNat mI ++ '.' :: padDigits k mF)
      = (renderNat mI, some (padDigits k mF)) :=
    splitDot_append _ (dot_not_mem_renderNat mI)
  have hstrip : stripSignF ((if sgn = -1 then ['-'] else [])
        ++ renderNat mI ++ '.' :: padDigits k mF)
      = (sgn, renderNat mI ++ '.' :: padDigits k mF) := by
    rcases hs with rfl | rfl
    · rw [if_neg (by norm_num), List.nil_append, stripSignF_renderNat_append]
    · rw [if_pos rfl, List.singleton_append, List.cons_append, stripSignF_dash]
  rw [parseQ]
  simp only [hdata, hstrip, hsplit]
  rw [if_pos (by simp [allDigits_renderNat, allDigits_padDigits, renderNat_isEmpty]),
    natVal_renderNat, natVal_padDigits, padDigits_length hk]

theorem parseQ_renderQ {q : ℚ} (h : ∃ k, q.den ∣ 10 ^ k) : parseQ (renderQ q) = some q := by
  obtain ⟨k, hfind, hdvd⟩ := findK_eq_some q.pos h
  have hsgn : (if q.num < 0 then (['-'] : List Char) else [])
      = (if (if q.num < 0 then (-1 : ℚ) else 1) = -1 then ['-'] else []) := by
    split <;> norm_num
  have hsq : (if q.num < 0 then (-1 : ℚ) else 1) = 1 ∨ (if q.num < 0 then (-1 : ℚ) else 1) = -1 := by
    split
    · right; rfl
    · left; rfl
  have habs : ((if q.num < 0 then (-1 : ℚ) else 1)) * (q.num.natAbs : ℚ) = (q.num : ℚ) := by
    split
    · rw [Int.cast_natAbs, abs_of_neg ‹q.num < 0›]
      push_cast
      ring
    · rw [Int.cast_natAbs, abs_of_nonneg (by omega : (0 : ℤ) ≤ q.num)]
      ring
  rcases Nat.eq_zero_or_pos k with rfl | hkpos
  · -- an integral value: `den = 1`, rendered without a decimal point
    have hden : q.den = 1 := by simpa using hdvd
    rw [renderQ, hfind]
    simp only [eq_self_iff_true, if_true, hden, pow_zero, Nat.mul_one, Nat.div_one]
    rw [hsgn, parseQ_int_string _ _ hsq]
    congr 1
    rw [habs]
    conv_rhs => rw [← Rat.num_div_den q]
    rw [hden]
    simp
  · -- a fractional value: integer part, `'.'`, padded fraction block
    have hk0 : k ≠ 0 := by omega
    have h10 : ((10 : ℚ) ^ k) ≠ 0 := by positivity
    have hdenQ : ((q.den : ℚ)) ≠ 0 := Nat.cast_ne_zero.mpr q.den_nz
    have hdvd' : q.den ∣ q.num.natAbs * 10 ^ k := Dvd.dvd.mul_left hdvd _
    have hm : q.num.natAbs * 10 ^ k / q.den * q.den = q.num.natAbs * 10 ^ k :=
      Nat.div_mul_cancel hdvd'
    have hmodlt : q.num.natAbs * 10 ^ k / q.den % 10 ^ k < 10 ^ k :=
      Nat.mod_lt _ (by positivity)
    rw [renderQ, hfind]
    simp only [if_neg hk0]
    rw [hsgn, parseQ_dec_string _ _ _ hmodlt _ hsq]
    congr 1
    have hNat : q.num.natAbs * 10 ^ k / q.den / 10 ^ k * 10 ^ k
        + q.num.natAbs * 10 ^ k / q.den % 10 ^ k = q.num.natAbs * 10 ^ k / q.den := by
      rw [mul_comm]
      exact Nat.div_add_mod _ (10 ^ k)
    have key1 : ((q.num.natAbs * 10 ^ k / q.den / 10 ^ k : ℕ) : ℚ)
        + ((q.num.natAbs * 10 ^ k / q.den % 10 ^ k : ℕ) : ℚ) / 10 ^ k
        = ((q.num.natAbs * 10 ^ k / q.den : ℕ) : ℚ) / 10 ^ k := by
      rw [eq_div_iff h10, add_mul, div_mul_cancel₀ _ h10]
      exact_mod_cast hNat
    have key2 : ((q.num.natAbs * 10 ^ k / q.den : ℕ) : ℚ)
        = (q.num.natAbs : ℚ) * 10 ^ k / (q.den : ℚ) := by
      rw [eq_div_iff hdenQ]
      exact_mod_cast hm
    rw [key1, key2]
    conv_rhs => rw [← Rat.num_div_den q, ← habs]
    field_simp
    ring

/-! ## Behavior of the native operations on symbolic states -/

theorem checkStackError_ok {st : Interp} {d : ℕ} {op : String} (h : d ≤ st.stack.length) :
    checkStackError st d op = .ok () := by
  rw [checkStackError, if_neg (by omega)]

theorem popStackF_eq {st : Interp} {s : String} {rest : List String} {v : ℚ}
    (hst : st.stack = s :: rest) (hp : parseQ s = some v) :
    popStackF st = .ok (v, { st with stack := rest }) := by
  simp only [popStackF, hst, hp]

theorem popStackF_err {st : Interp} {s : String} {rest : List String}
    (hst : st.stack = s :: rest) (hp : parseQ s = none) :
    popStackF st = .error (.parseFailure s) := by
  simp only [popStackF, hst, hp]

theorem ok_bind {α β : Type} (a : α) (f : α → Except CompError β) :
    (Except.ok a >>= f : Except CompError β) = f a := rfl

theorem c_add_ok {st : Interp} {op s1 s2 : String} {rest : List String} {q1 q2 : ℚ}
    (hst : st.stack = s1 :: s2 :: rest) (h1 : parseQ s1 = some q1) (h2 : parseQ s2 = some q2) :
    c_add st op = .ok { st with stack := renderQ (q2 + q1) :: rest } := by
  rw [c_add, checkStackError_ok (by rw [hst]; simp), popStackF_eq hst h1]
  simp only [ok_bind]
  rw [@popStackF_eq { st with stack := s2 :: rest } _ _ _ rfl h2]
  simp only [ok_bind]
  rfl

theorem c_mult_ok {st : Interp} {op s1 s2 : String} {rest : List String} {q1 q2 : ℚ}
    (hst : st.stack = s1 :: s2 :: rest) (h1 : parseQ s1 = some q1) (h2 : parseQ s2 = some q2) :
    c_mult st op = .ok { st with stack := renderQ (q2 * q1) :: rest } := by
  rw [c_mult, checkStackError_ok (by rw [hst]; simp), popStackF_eq hst h1]
  simp only [ok_bind]
  rw [@popStackF_eq { st with stack := s2 :: rest } _ _ _ rfl h2]
  simp only [ok_bind]
  rfl

theorem insertOpsFront_eq_append (fops ops : List String) :
    insertOpsFront fops ops = fops ++ ops := by
  induction fops with
  | nil => rfl
  | cons f t ih => rw [insertOpsFront] at ih ⊢; rw [List.foldr_cons, ih, List.cons_append]

theorem buildFn_eq_none {l : List String} (h : "end" ∉ l) : buildFn l = none := by
  induction l with
  | nil => rfl
  | cons t rest ih =>
    rw [buildFn, if_neg (fun he : t = "end" => h (by rw [← he]; exact List.mem_cons_self t rest)),
      ih (fun hr => h (List.mem_cons_of_mem t hr))]
    rfl

theorem commentLoop_eq_nil {l : List String} (h : ")" ∉ l) : ∀ nested, commentLoop nested l = [] := by
  induction l with
  | nil => intro nested; rfl
  | cons t rest ih =>
    intro nested
    have hne : t ≠ ")" := fun he => h (he ▸ List.mem_cons_self t rest)
    have hrest : ")" ∉ rest := fun hr => h (List.mem_cons_of_mem t hr)
    rw [commentLoop]
    split_ifs with h1
    · exact ih hrest _
    · exact ih hrest _

/-! ## The fold operations `+_` and `x_` -/

/-- The strings `ss` parse pointwise (as floats) to the rationals `qs`. -/
def ParsesTo (ss : List String) (qs : List ℚ) : Prop :=
  List.Forall₂ (fun s q => parseQ s = some q) ss qs

theorem addLoop_go (op : String) {ss : List String} {qs : List ℚ} (hp : ParsesTo ss qs) :
    ∀ (acc : ℚ) (st : Interp) (fuel : ℕ), TDec acc → st.stack = renderQ acc :: ss →
      ss.length ≤ fuel →
      addLoop op fuel st = .ok { st with stack := [renderQ (qs.sum + acc)] } := by
  induction hp with
  | nil =>
    intro acc st fuel hT hst _
    obtain ⟨stk, ma, mb, mc, o, f, w⟩ := st
    simp only at hst
    subst hst
    have hsum : (([] : List ℚ).sum + acc) = acc := by simp
    rw [hsum]
    cases fuel with
    | zero => rfl
    | succ n =>
      rw [addLoop, if_neg (by simp)]
      rfl
  | cons hs hp' ih =>
    rename_i s q ss' qs'
    intro acc st fuel hT hst hf
    cases fuel with
    | zero => simp at hf
    | succ n =>
      rw [addLoop, if_pos (by rw [hst]; simp)]
      have hacc : parseQ (renderQ acc) = some acc := parseQ_renderQ hT.den_dvd
      rw [c_add_ok hst hacc hs]
      simp only [ok_bind]
      rw [ih (q + acc) _ n (TDec.add (parseQ_TDec hs) hT) rfl (by simpa using hf)]
      have hsum : qs'.sum + (q + acc) = (q :: qs').sum + acc := by
        rw [List.sum_cons]
        ring
      rw [hsum]

theorem multLoop_go (op : String) {ss : List String} {qs : List ℚ} (hp : ParsesTo ss qs) :
    ∀ (acc : ℚ) (st : Interp) (fuel : ℕ), TDec acc → st.stack = renderQ acc :: ss →
      ss.length ≤ fuel →
      multLoop op fuel st = .ok { st with stack := [renderQ (qs.prod * acc)] } := by
  induction hp with
  | nil =>
    intro acc st fuel hT hst _
    obtain ⟨stk, ma, mb, mc, o, f, w⟩ := st
    simp only at hst
    subst hst
    have hsum : (([] : List ℚ).prod * acc) = acc := by simp
    rw [hsum]
    cases fuel with
    | zero => rfl
    | succ n =>
      rw [multLoop, if_neg (by simp)]
      rfl
  | cons hs hp' ih =>
    rename_i s q ss' qs'
    intro acc st fuel hT hst hf
    cases fuel with
    | zero => simp at hf
    | succ n =>
      rw [multLoop, if_pos (by rw [hst]; simp)]
      have hacc : parseQ (renderQ acc) = some acc := parseQ_renderQ hT.den_dvd
      rw [c_mult_ok hst hacc hs]
      simp only [ok_bind]
      rw [ih (q * acc) _ n (TDec.mul (parseQ_TDec hs) hT) rfl (by simpa using hf)]
      have hsum : qs'.prod * (q * acc) = (q :: qs').prod * acc := by
        rw [List.prod_cons]
        ring
      rw [hsum]

theorem c_add_all_ok {st : Interp} {op s1 s2 : String} {rest : List String}
    {q1 q2 : ℚ} {qs : List ℚ}
    (hst : st.stack = s1 :: s2 :: rest) (h1 : parseQ s1 = some q1) (h2 : parseQ s2 = some q2)
    (hp : ParsesTo rest qs) :
    c_add_all st op = .ok { st with stack := [renderQ (q1 + q2 + qs.sum)] } := by
  rw [c_add_all, checkStackError_ok (by rw [hst]; simp)]
  simp only [ok_bind]
  have hlen : st.stack.length = rest.length + 2 := by rw [hst]; simp
  rw [hlen, addLoop, if_pos (by rw [hst]; simp), c_add_ok hst h1 h2]
  simp only [ok_bind]
  rw [addLoop_go op hp (q2 + q1) _ (rest.length + 1)
    (TDec.add (parseQ_TDec h2) (parseQ_TDec h1)) rfl (by omega)]
  have hsum : qs.sum + (q2 + q1) = q1 + q2 + qs.sum := by ring
  rw [hsum]

theorem c_mult_all_ok {st : Interp} {op s1 s2 : String} {rest : List String}
    {q1 q2 : ℚ} {qs : List ℚ}
    (hst : st.stack = s1 :: s2 :: rest) (h1 : parseQ s1 = some q1) (h2 : parseQ s2 = some q2)
    (hp : ParsesTo rest qs) :
    c_mult_all st op = .ok { st with stack := [renderQ (q1 * q2 * qs.prod)] } := by
  rw [c_mult_all, checkStackError_ok (by rw [hst]; simp)]
  simp only [ok_bind]
  have hlen : st.stack.length = rest.length + 2 := by rw [hst]; simp
  rw [hlen, multLoop, if_pos (by rw [hst]; simp), c_mult_ok hst h1 h2]
  simp only [ok_bind]
  rw [multLoop_go op hp (q2 * q1) _ (rest.length + 1)
    (TDec.mul (parseQ_TDec h2) (parseQ_TDec h1)) rfl (by omega)]
  have hsum : qs.prod * (q2 * q1) = q1 * q2 * qs.prod := by ring
  rw [hsum]

/-! ## Claims -/

/-- Claim C1, corrected.  The original claim says an unrecognized token is
parsed at dispatch time and a parse failure is fatal AT THAT STEP, "rather
than pushing the token onto the stack".  In the code the literal branch of
`process_node` pushes the token verbatim with no parse attempt; a
ParseFailure (exit 99) arises only later, when some numeric operation pops
the token via `pop_stack_f`.  This theorem states the amended behavior: the
token is pushed verbatim and the evaluation step succeeds, and popping an
unparseable token is the fatal exit-99 ParseFailure. -/
theorem C1_amended (F : FloatFns) (st : Interp) (op : String)
    (hcmap : cmap F op = none) (hfind : findFn st.fns op = none) :
    processNode F st op = .ok { st with stack := op :: st.stack } ∧
    (∀ s rest, st.stack = s :: rest → parseQ s = none →
      popStackF st = .error (.parseFailure s) ∧ (CompError.parseFailure s).exitCode = 99) := by
  constructor
  · rw [processNode]
    simp only [hcmap, hfind]
  · intro s rest hst hp
    exact ⟨popStackF_err hst hp, rfl⟩

/-- Claim C1, counterexample to the original wording: `"foo"` is neither a
command nor a function name and does not parse as a number, yet the program
`foo` terminates normally with `"foo"` pushed onto the stack — no fatal
ParseFailure occurs at the dispatch step. -/
theorem C1_counterexample :
    runStacks zeroFns 10 ["foo"] = some (.ok ["foo"]) ∧ parseQ "foo" = none := by
  constructor
  · rfl
  · rfl

/-- Claim C1, witness instantiating `C1_amended` at a concrete input. -/
theorem C1_witness :
    processNode zeroFns Interp.new "foo" = .ok { Interp.new with stack := ["foo"] } ∧
    popStackF { Interp.new with stack := ["foo"] } = .error (.parseFailure "foo") :=
  ⟨(C1_amended zeroFns Interp.new "foo" rfl rfl).1,
   ((C1_amended zeroFns { Interp.new with stack := ["foo"] } "foo" rfl rfl).2
      "foo" [] rfl rfl).1⟩

attribute [local semireducible] Rat.mul Rat.add Rat.sub Rat.inv in
/-- Claim C2, confirmed.  A token that is not a registered command but is a
function-table name has the function's body inserted, in original order, at
the front of the pending queue, ahead of all remaining tokens; and the
program `fn sq dup x end 5 sq` terminates with exactly one stack value
`25`. -/
theorem C2_fn_expansion :
    (∀ (F : FloatFns) (st : Interp) (op : String) (f : Function),
      cmap F op = none → findFn st.fns op = some f →
      processNode F st op = .ok { st with ops := f.fops ++ st.ops }) ∧
    runStacks zeroFns 10 ["fn", "sq", "dup", "x", "end", "5", "sq"] = some (.ok ["25"]) := by
  constructor
  · intro F st op f hcmap hfind
    rw [processNode]
    simp only [hcmap, hfind, insertOpsFront_eq_append]
  · decide

/-- Claim C2, witness instantiating the quantified part of `C2_fn_expansion`
at a concrete state. -/
theorem C2_witness :
    processNode zeroFns
        { Interp.new with fns := [⟨"sq", ["dup", "x"]⟩], ops := ["tl"] } "sq"
      = .ok { Interp.new with fns := [⟨"sq", ["dup", "x"]⟩], ops := ["dup", "x", "tl"] } :=
  C2_fn_expansion.1 zeroFns { Interp.new with fns := [⟨"sq", ["dup", "x"]⟩], ops := ["tl"] }
    "sq" ⟨"sq", ["dup", "x"]⟩ rfl rfl

/-- Claim C3, corrected.  The original claim says `+_` and `x_` succeed for
every stack depth N ≥ 1; in the code both `c_add_all` and `c_mult_all`
check a minimum depth of 2 first (`check_stack_error(self, 2, op)`), so a
one-element stack is a fatal stack underflow.  For N ≥ 2 the fold result
is as claimed: a single value equal to the sum (resp. product) of the N
parsed values in push order (the model's stack list is top-first, so push
order is the reversed list). -/
theorem C3_amended (st : Interp) (op : String) (s1 s2 : String) (rest : List String)
    (q1 q2 : ℚ) (qs : List ℚ)
    (hst : st.stack = s1 :: s2 :: rest)
    (h1 : parseQ s1 = some q1) (h2 : parseQ s2 = some q2) (hp : ParsesTo rest qs) :
    c_add_all st op = .ok { st with stack := [renderQ ((qs.reverse ++ [q2, q1]).sum)] } ∧
    c_mult_all st op = .ok { st with stack := [renderQ ((qs.reverse ++ [q2, q1]).prod)] } := by
  have hsum : (qs.reverse ++ [q2, q1]).sum = q1 + q2 + qs.sum := by
    rw [List.sum_append, (List.reverse_perm qs).sum_eq, List.sum_cons, List.sum_cons,
      List.sum_nil]
    ring
  have hprod : (qs.reverse ++ [q2, q1]).prod = q1 * q2 * qs.prod := by
    rw [List.prod_append, (List.reverse_perm qs).prod_eq, List.prod_cons, List.prod_cons,
      List.prod_nil]
    ring
  rw [hsum, hprod]
  exact ⟨c_add_all_ok hst h1 h2 hp, c_mult_all_ok hst h1 h2 hp⟩

/-- Claim C3, counterexample to the original depth requirement: on a stack
holding the single numeric value `5`, both folds terminate with a fatal
stack-underflow diagnostic demanding two elements, instead of succeeding. -/
theorem C3_counterexample :
    c_add_all { Interp.new with stack := ["5"] } "+_" = .error (.stackUnderflow "+_" 2) ∧
    c_mult_all { Interp.new with stack := ["5"] } "x_" = .error (.stackUnderflow "x_" 2) := by
  constructor
  · rfl
  · rfl

attribute [local semireducible] Rat.mul Rat.add Rat.sub Rat.inv in
/-- Claim C3, witness instantiating `C3_amended` on the stack `1 2 4`
(pushed in that order): the sum fold gives `7`, the product fold `8`. -/
theorem C3_witness :
    (c_add_all { Interp.new with stack := ["1", "2", "4"] } "+_"
        = .ok { Interp.new with stack := [renderQ ((([4] : List ℚ).reverse ++ [2, 1]).sum)] }) ∧
    renderQ ((([4] : List ℚ).reverse ++ [2, 1]).sum) = "7" ∧
    (c_mult_all { Interp.new with stack := ["1", "2", "4"] } "x_"
        = .ok { Interp.new with stack := [renderQ ((([4] : List ℚ).reverse ++ [2, 1]).prod)] }) ∧
    renderQ ((([4] : List ℚ).reverse ++ [2, 1]).prod) = "8" :=
  have hp : ParsesTo ["4"] [4] := List.Forall₂.cons (by decide) List.Forall₂.nil
  ⟨(C3_amended { Interp.new with stack := ["1", "2", "4"] } "+_" "1" "2" ["4"] 1 2 [4]
      rfl (by decide) (by decide) hp).1,
   by decide,
   (C3_amended { Interp.new with stack := ["1", "2", "4"] } "x_" "1" "2" ["4"] 1 2 [4]
      rfl (by decide) (by decide) hp).2,
   by decide⟩

/-- Claim C4, code bug.  The spec requires `logn` to check a stack depth of
2 before popping; `c_logn` in the source checks a depth of only 1
(`check_stack_error(self, 1, op)`) and then pops two operands, so on the
one-element stack `2` the depth check passes, the first pop consumes `2`,
and the second pop `unwrap`s `None` — a Rust panic (exit 101), not the
claimed stack-underflow diagnostic.  The theorem evaluates the code at the
failing input and records that the check used is the depth-1 check. -/
theorem C4_logn_crash :
    runStacks zeroFns 10 ["2", "logn"] = some (.error .crashUnwrapNone) ∧
    checkStackError { Interp.new with stack := ["2"] } 1 "logn" = .ok () ∧
    CompError.crashUnwrapNone.exitCode = 101 := by
  refine ⟨by decide, rfl, rfl⟩

/-- Claim C5, corrected.  The original claim says both an unterminated
comment and an unterminated function body silently exhaust the queue with no
error.  That is true for comments (`c_comment` simply stops when the queue
empties), but false for `fn`: once the queue empties before an `end` is
found, `while self.ops[0] != "end"` indexes an empty `Vec` — a panic (and
`fn` as the last token panics in `self.ops.remove(0)`).  Amended: the
comment case consumes the remaining queue without error; the `fn` case
crashes whenever no `end` follows the function name. -/
theorem C5_amended :
    (∀ (st : Interp) (op : String), ")" ∉ st.ops →
      c_comment st op = .ok { st with ops := [] }) ∧
    (∀ (st : Interp) (op : String), "end" ∉ st.ops.drop 1 →
      c_fn st op = .error .crashIndexOOB) := by
  constructor
  · intro st op h
    rw [c_comment, commentLoop_eq_nil h 0]
  · intro st op h
    match hops : st.ops with
    | [] => simp only [c_fn, hops]
    | fnName :: rest =>
      rw [hops] at h
      simp only [c_fn, hops, buildFn_eq_none (by simpa using h)]

/-- Claim C5, counterexample to the original wording: the unterminated
comment `( 1 2` ends quietly with an empty stack, but the unterminated
function definition `fn f dup` terminates with a crash, not quietly. -/
theorem C5_counterexample :
    runStacks zeroFns 10 ["(", "1", "2"] = some (.ok []) ∧
    runStacks zeroFns 10 ["fn", "f", "dup"] = some (.error .crashIndexOOB) := by
  constructor
  · rfl
  · rfl

/-- Claim C5, witness instantiating `C5_amended` at concrete queues. -/
theorem C5_witness :
    c_comment { Interp.new with ops := ["1", "2"] } "(" = .ok { Interp.new with ops := [] } ∧
    c_fn { Interp.new with ops := ["f", "dup"] } "fn" = .error .crashIndexOOB :=
  ⟨C5_amended.1 { Interp.new with ops := ["1", "2"] } "(" (by decide),
   C5_amended.2 { Interp.new with ops := ["f", "dup"] } "fn" (by decide)⟩

/-- Claim C6, confirmed.  With the stack holding `a`, `b`, `c` (`c`
topmost), `proot` pops `c`, `b`, `a`; when the discriminant `b*b - 4*a*c`
is negative it pushes the conjugate pair as `real1, imag1, real2, imag2` in
push order (`prootComplexStack`; the model's stack list is top-first, so
`imag2` is its head), with `real1 = real2 = -b/(2a)` and imaginary parts
`±sqrt(4ac-b²)/(2a)`; otherwise it pushes two real parts each followed by
imaginary part `0` (`prootRealStack`), computed with the source's missing
parenthesization as `-b ± sqrt(disc)/(2a)`.  `sqrt` is the abstract float
oracle. -/
theorem C6_proot (F : FloatFns) (st : Interp) (op : String) (sc sb sa : String)
    (rest : List String) (a b c : ℚ)
    (hst : st.stack = sc :: sb :: sa :: rest)
    (hc : parseQ sc = some c) (hb : parseQ sb = some b) (ha : parseQ sa = some a) :
    (b * b - 4 * a * c < 0 →
      c_proot F st op = .ok { st with stack := prootComplexStack F a b c rest }) ∧
    (¬b * b - 4 * a * c < 0 →
      c_proot F st op = .ok { st with stack := prootRealStack F a b c rest }) := by
  have hred : c_proot F st op =
      if b * b - 4 * a * c < 0 then
        .ok { st with stack := prootComplexStack F a b c rest }
      else
        .ok { st with stack := prootRealStack F a b c rest } := by
    rw [c_proot, checkStackError_ok (by rw [hst]; simp), popStackF_eq hst hc]
    simp only [ok_bind]
    rw [@popStackF_eq { st with stack := sb :: sa :: rest } _ _ _ rfl hb]
    simp only [ok_bind]
    rw [@popStackF_eq { st with stack := sa :: rest } _ _ _ rfl ha]
    simp only [ok_bind]
    split_ifs with hdisc
    · rfl
    · rfl
  constructor
  · intro hdisc
    rw [hred, if_pos hdisc]
  · intro hdisc
    rw [hred, if_neg hdisc]

attribute [local semireducible] Rat.mul Rat.add Rat.sub Rat.inv in
/-- Claim C6, witness instantiating `C6_proot` with the zero oracle on both
branches: `1 0 1 proot` (discriminant `-4 < 0`) and `1 0 -1 proot`
(discriminant `4 ≥ 0`); with `sqrt ↦ 0` every pushed component renders as
`"0"`. -/
theorem C6_witness :
    (c_proot zeroFns { Interp.new with stack := ["1", "0", "1"] } "proot"
        = .ok { Interp.new with stack := prootComplexStack zeroFns 1 0 1 [] }) ∧
    prootComplexStack zeroFns 1 0 1 [] = ["0", "0", "0", "0"] ∧
    (c_proot zeroFns { Interp.new with stack := ["-1", "0", "1"] } "proot"
        = .ok { Interp.new with stack := prootRealStack zeroFns 1 0 (-1) [] }) ∧
    prootRealStack zeroFns 1 0 (-1) [] = ["0", "0", "0", "0"] :=
  ⟨(C6_proot zeroFns { Interp.new with stack := ["1", "0", "1"] } "proot" "1" "0" "1" [] 1 0 1
      rfl (by decide) (by decide) (by decide)).1 (by decide),
   by decide,
   (C6_proot zeroFns { Interp.new with stack := ["-1", "0", "1"] } "proot" "-1" "0" "1" [] 1 0
      (-1) rfl (by decide) (by decide) (by decide)).2 (by decide),
   by decide⟩

/-- Claim C7, confirmed.  `drop` on an empty stack is non-fatal: the result
is `ok`, the stack stays empty, and only a warning is recorded; on a
non-empty stack exactly the top element is discarded. -/
theorem C7_drop (st : Interp) (op : String) :
    (st.stack = [] → c_drop st op = .ok { st with warnings := st.warnings ++ [op] }) ∧
    (∀ s rest, st.stack = s :: rest → c_drop st op = .ok { st with stack := rest }) := by
  constructor
  · intro h
    simp only [c_drop, h]
  · intro s rest h
    simp only [c_drop, h]

/-- Claim C7, witness instantiating `C7_drop` on the empty and a singleton
stack. -/
theorem C7_witness :
    c_drop Interp.new "drop" = .ok { Interp.new with warnings := ["drop"] } ∧
    c_drop { Interp.new with stack := ["5"] } "drop" = .ok Interp.new :=
  ⟨(C7_drop Interp.new "drop").1 rfl,
   (C7_drop { Interp.new with stack := ["5"] } "drop").2 "5" [] rfl⟩

/-- Claim C8, corrected.  `sa a` preserves the NUMERIC value of the top of
the stack (and stores it in register `a`), but the text is re-rendered
canonically: the stack is literally unchanged only when the top was already
a canonical rendering.  The store-then-retrieve round trip maps top `s`
(parsing to `q`) to `renderQ q`. -/
theorem C8_amended (st : Interp) (op1 op2 s : String) (q : ℚ) (rest : List String)
    (hst : st.stack = s :: rest) (hp : parseQ s = some q) :
    (c_store_a st op1 >>= fun st1 => c_push_a st1 op2)
        = .ok { st with stack := renderQ q :: rest, mem_a := q } ∧
    (s = renderQ q → renderQ q :: rest = st.stack) := by
  constructor
  · rw [c_store_a, checkStackError_ok (by rw [hst]; simp), popStackF_eq hst hp]
    simp only [ok_bind]
    rfl
  · intro h
    rw [hst, h]

attribute [local semireducible] Rat.mul Rat.add Rat.sub Rat.inv in
/-- Claim C8, counterexample to the literal original wording: before `sa a`
the stack is `["5.0"]` (the literal is pushed verbatim), afterwards it is
`["5"]` — the same number, a different string, so the stack is NOT equal to
its prior state. -/
theorem C8_counterexample :
    runStacks zeroFns 10 ["5.0"] = some (.ok ["5.0"]) ∧
    runStacks zeroFns 10 ["5.0", "sa", "a"] = some (.ok ["5"]) ∧
    (["5"] : List String) ≠ ["5.0"] := by
  refine ⟨rfl, by decide, by decide⟩

attribute [local semireducible] Rat.mul Rat.add Rat.sub Rat.inv in
/-- Claim C8, witness instantiating `C8_amended` on a canonically rendered
top value, where the stack is literally restored. -/
theorem C8_witness :
    ((c_store_a { Interp.new with stack := ["2.5"] } "sa" >>= fun st1 => c_push_a st1 "a")
        = .ok { Interp.new with stack := [renderQ (5 / 2)], mem_a := 5 / 2 }) ∧
    renderQ ((5 : ℚ) / 2) = "2.5" :=
  ⟨(C8_amended { Interp.new with stack := ["2.5"] } "sa" "a" "2.5" (5 / 2) [] rfl (by decide)).1,
   by decide⟩

/-- Claim C9, confirmed.  `Interpreter::new` initializes all three memory
registers to `0.0`, and executing `a`, `b`, `c` before any store pushes
`0` for each. -/
theorem C9_registers :
    Interp.new.mem_a = 0 ∧ Interp.new.mem_b = 0 ∧ Interp.new.mem_c = 0 ∧
    ∀ F : FloatFns, runStacks F 5 ["a", "b", "c"] = some (.ok ["0", "0", "0"]) :=
  ⟨rfl, rfl, rfl, fun _ => rfl⟩

attribute [local semireducible] Rat.mul Rat.add Rat.sub Rat.inv in
/-- Claim C10, confirmed.  `dup` parses the popped top as a float and pushes
the canonical rendering of the parsed value twice: an unparseable top on a
depth-1 stack is a fatal exit-99 ParseFailure despite satisfying the depth
requirement, and a parseable top is replaced by its canonical rendering
(`5.0 dup` yields two copies of `"5"`, not of `"5.0"`). -/
theorem C10_dup :
    (∀ (st : Interp) (op s : String) (rest : List String) (q : ℚ),
      st.stack = s :: rest → parseQ s = some q →
      c_dup st op = .ok { st with stack := renderQ q :: renderQ q :: rest }) ∧
    (∀ (st : Interp) (op s : String) (rest : List String),
      st.stack = s :: rest → parseQ s = none →
      c_dup st op = .error (.parseFailure s) ∧ (CompError.parseFailure s).exitCode = 99) ∧
    runStacks zeroFns 10 ["5.0", "dup"] = some (.ok ["5", "5"]) := by
  refine ⟨?_, ?_, ?_⟩
  · intro st op s rest q hst hp
    rw [c_dup, checkStackError_ok (by rw [hst]; simp), popStackF_eq hst hp]
    simp only [ok_bind]
    rfl
  · intro st op s rest hst hp
    refine ⟨?_, rfl⟩
    rw [c_dup, checkStackError_ok (by rw [hst]; simp), popStackF_err hst hp]
    rfl
  · decide

attribute [local semireducible] Rat.mul Rat.add Rat.sub Rat.inv in
/-- Claim C10, witness instantiating `C10_dup` on a parseable and an
unparseable top. -/
theorem C10_witness :
    (c_dup { Interp.new with stack := ["5.0"] } "dup"
        = .ok { Interp.new with stack := [renderQ 5, renderQ 5] }) ∧
    renderQ (5 : ℚ) = "5" ∧
    c_dup { Interp.new with stack := ["foo"] } "dup" = .error (.parseFailure "foo") :=
  ⟨C10_dup.1 { Interp.new with stack := ["5.0"] } "dup" "5.0" [] 5 rfl (by decide),
   by decide,
   (C10_dup.2.1 { Interp.new with stack := ["foo"] } "dup" "foo" [] rfl (by decide)).1⟩

end Comp
